import Mathlib

set_option autoImplicit false

/-!
Verification of the libslax/libxi workspace layer (`libxi/xiworkspace.c`)
over a shallow embedding.  Atoms are modelled as natural numbers with `0`
playing the role of `PA_NULL_ATOM`; the parrotdb pools (`pa_istr`,
`pa_pat`, `pa_fixed`, `pa_mmap`), whose sources are not part of this
development, are modelled from their specified contracts; the routines of
`xiworkspace.c` are translated statement by statement.
-/

/-! ## The patricia-trie index (pa_pat)

Modelled from the spec: the trie maps byte-string keys (extracted from the
data referenced by a data atom via a key function) to data atoms, with exact
key equality; `find` returns the data atom or the null atom; `insert`
rejects a key that is already present (DuplicateKey), distinctly from
success.  We model the index as a list of key/atom entries, generic in the
key type (string keys for the name pool, atom pairs for the namespace map).
-/

/-- Modelled from the spec: pa_pat_get_atom - exact-equality lookup of a key
in the trie index, returning its data atom, or the null atom 0 on a miss. -/
def paPatGetAtom {κ : Type} [DecidableEq κ] : List (κ × Nat) → κ → Nat
  | [], _ => 0
  | e :: rest, key => if e.1 = key then e.2 else paPatGetAtom rest key

/-- Modelled from the spec: whether the trie index already holds a key
(insert must detect and reject a collision distinctly from success). -/
def paPatHasKey {κ : Type} [DecidableEq κ] : List (κ × Nat) → κ → Bool
  | [], _ => false
  | e :: rest, key => if e.1 = key then true else paPatHasKey rest key

/-- Modelled from the spec: pa_pat_add - insert a key/data-atom entry;
returns false (DuplicateKey) and leaves the index unchanged when the key is
already present, true and the extended index otherwise. -/
def paPatAdd {κ : Type} [DecidableEq κ] (idx : List (κ × Nat)) (key : κ)
    (datom : Nat) : Bool × List (κ × Nat) :=
  if paPatHasKey idx key then (false, idx) else (true, (key, datom) :: idx)

/-! ## The name pool (pa_istr + name-pool trie)

The interned-string pool (`pa_istr`, modelled from the spec) stores
length-prefixed byte strings and returns a fresh atom per stored string,
with no deduplication of its own; atoms are handed out consecutively
starting at 1 (0 is the null atom).  The name-pool trie index is keyed on
the stored string's bytes. -/

/-- The name-pool state used by xi_namepool_atom: the interned-string pool
(list of atom/string records plus the next fresh atom) and the trie index
over it. -/
structure NamePool where
  strings : List (Nat × String)
  nextAtom : Nat
  index : List (String × Nat)
deriving DecidableEq

/-- An empty, freshly opened name pool. -/
def emptyNamePool : NamePool := { strings := [], nextAtom := 1, index := [] }

/--
xi_namepool_atom (xiworkspace.c:209-228), with the DuplicateKey race made
explicit.  The source looks the string up in the trie; on a miss with
`createp` set it stores the string in the interned-string pool
(pa_istr_string, modelled from the spec as returning the next fresh atom)
and then adds the trie entry, only logging a warning when pa_pat_add
reports a duplicate - the returned value is the freshly stored atom in
either case.  The spec attributes a duplicate at this point to "a
concurrent/earlier insert [that] raced and won"; `raced` is modelled from
the spec as the entries such a racing writer committed between the lookup
and the add (the single-writer execution is `raced = []`).
-/
def xi_namepool_atomR (np : NamePool) (raced : List (String × Nat))
    (data : String) (createp : Bool) : Nat × NamePool :=
  let datom := paPatGetAtom np.index data
  if datom = 0 ∧ createp then
    let iatom := np.nextAtom
    let np1 : NamePool :=
      { strings := (iatom, data) :: np.strings, nextAtom := iatom + 1,
        index := raced ++ np.index }
    let ar := paPatAdd np1.index data iatom
    (iatom, { np1 with index := ar.2 })
  else
    (datom, np)

/-- xi_namepool_atom in its single-writer execution (no concurrent insert
between the trie lookup and the trie add). -/
def xi_namepool_atom (np : NamePool) (data : String) (createp : Bool) :
    Nat × NamePool :=
  xi_namepool_atomR np [] data createp

/-- Well-formedness of a name pool: the next fresh atom is nonzero, every
index entry's atom is a previously issued nonzero atom, index keys are
unique, and distinct keys carry distinct atoms. -/
structure NamePool.WF (np : NamePool) : Prop where
  next_pos : 1 ≤ np.nextAtom
  atom_pos : ∀ e ∈ np.index, 1 ≤ e.2
  atom_lt : ∀ e ∈ np.index, e.2 < np.nextAtom
  keys_nodup : (np.index.map Prod.fst).Nodup
  inj : ∀ e ∈ np.index, ∀ f ∈ np.index, e.1 ≠ f.1 → e.2 ≠ f.2

/-! ## The workspace namespace map (xi_ns_find)

The namespace map is a fixed slot pool of `xi_ns_map_t` records - pairs of
name atoms `(prefix atom, uri atom)` - with a trie index keyed on the raw
bytes of the pair record (`xi_ns_key_func`).  We model the pair key as a
pair of naturals, the fixed pool (`pa_fixed`, modelled from the spec) as a
record list plus a fresh-atom counter. -/

/-- The workspace state touched by xi_ns_find: the name pool and the
namespace-map pool with its trie index. -/
structure XiWorkspace where
  names : NamePool
  nsMap : List (Nat × (Nat × Nat))
  nsNext : Nat
  nsIndex : List ((Nat × Nat) × Nat)
deriving DecidableEq

/-- A freshly opened workspace with empty pools. -/
def emptyWorkspace : XiWorkspace :=
  { names := emptyNamePool, nsMap := [], nsNext := 1, nsIndex := [] }

/--
xi_ns_find (xiworkspace.c:283-326), with the DuplicateKey race made
explicit.  A non-empty prefix and a non-empty URI are interned with create
forced to TRUE (returning the null atom if that fails); the pair of atoms
is then looked up in the namespace trie; on a miss with `createp` set a
fresh ns-map record is allocated (xi_ns_map_alloc, modelled from the spec
as handing out the next fresh atom of the fixed pool), initialized with the
pair, and added to the trie.  When pa_pat_add reports a duplicate the
record is freed again (xi_ns_map_free, modelled from the spec as returning
the record to the pool) and the null atom is returned.  `racedNs` is
modelled from the spec as the trie entries a racing writer committed
between the lookup and the add (single-writer execution: `racedNs = []`).
-/
def xi_ns_findR (xwp : XiWorkspace) (racedNs : List ((Nat × Nat) × Nat))
    (pfx uri : String) (createp : Bool) : Nat × XiWorkspace :=
  let pr := if pfx ≠ "" then xi_namepool_atom xwp.names pfx true
            else (0, xwp.names)
  let xwp1 := { xwp with names := pr.2 }
  if pfx ≠ "" ∧ pr.1 = 0 then (0, xwp1)
  else
    let ur := if uri ≠ "" then xi_namepool_atom xwp1.names uri true
              else (0, xwp1.names)
    let xwp2 := { xwp1 with names := ur.2 }
    if uri ≠ "" ∧ ur.1 = 0 then (0, xwp2)
    else
      let ns : Nat × Nat := (pr.1, ur.1)
      let atom := paPatGetAtom xwp2.nsIndex ns
      if atom = 0 ∧ createp then
        let newAtom := xwp2.nsNext
        let xwp3 := { xwp2 with nsMap := (newAtom, ns) :: xwp2.nsMap,
                                nsNext := newAtom + 1,
                                nsIndex := racedNs ++ xwp2.nsIndex }
        let ar := paPatAdd xwp3.nsIndex ns newAtom
        if ar.1 then (newAtom, { xwp3 with nsIndex := ar.2 })
        else (0, { xwp3 with nsMap := xwp3.nsMap.filter (fun e => e.1 != newAtom) })
      else (atom, xwp2)

/-- xi_ns_find in its single-writer execution (no concurrent insert between
the trie lookup and the trie add). -/
def xi_ns_find (xwp : XiWorkspace) (pfx uri : String) (createp : Bool) :
    Nat × XiWorkspace :=
  xi_ns_findR xwp [] pfx uri createp

/-- Well-formedness of the workspace namespace state: the name pool is
well-formed, namespace-trie atoms are previously issued nonzero ns-map
atoms, trie keys are unique with distinct keys carrying distinct atoms,
and every trie key is a pair of already-issued name atoms. -/
structure XiWorkspace.WF (w : XiWorkspace) : Prop where
  names_wf : w.names.WF
  ns_next_pos : 1 ≤ w.nsNext
  ns_atom_pos : ∀ e ∈ w.nsIndex, 1 ≤ e.2
  ns_atom_lt : ∀ e ∈ w.nsIndex, e.2 < w.nsNext
  ns_keys_nodup : (w.nsIndex.map Prod.fst).Nodup
  ns_inj : ∀ e ∈ w.nsIndex, ∀ f ∈ w.nsIndex, e.1 ≠ f.1 → e.2 ≠ f.2
  ns_key_bound : ∀ e ∈ w.nsIndex,
    e.1.1 < w.names.nextAtom ∧ e.1.2 < w.names.nextAtom

/-! ## Nodes and attribute lookup (xi_get_attrib)

Modelled from the spec: the node record `xi_node_t` (its header is not in
src) carries a type tag, a name atom, a namespace-map atom, a depth, flags
(among them an "attributes present" bit), a contents/first-child atom and a
next-sibling atom; children of a node are the records reached from its
contents atom along the sibling chain while their depth exceeds the
node's.  The numeric values of the type tag and of the flag bit are not
observable here; only equality of tags and presence of the bit are. -/

structure XiNode where
  xn_type : Nat
  xn_ns_map : Nat
  xn_name : Nat
  xn_depth : Nat
  xn_flags : Nat
  xn_next : Nat
  xn_contents : Nat
deriving DecidableEq

/-- Modelled from the spec: the type tag marking attribute records. -/
def XI_TYPE_ATTRIB : Nat := 4

/-- Modelled from the spec: the "attributes present" node flag bit. -/
def XNF_ATTRIBS_PRESENT : Nat := 1

/-- Modelled from the spec: xi_node_addr - resolve a node atom to its
record in the node pool (NULL when the atom resolves to nothing). -/
def xi_node_addr : List (Nat × XiNode) → Nat → Option XiNode
  | [], _ => none
  | e :: rest, a => if e.1 = a then some e.2 else xi_node_addr rest a

/-- The scan loop of xi_get_attrib (xiworkspace.c:245-261): follow the
sibling chain from a node atom; stop on the null atom, an unresolvable
atom, or a record whose depth has fallen back to the starting node's;
skip records that are not attributes; return the contents atom of the
first attribute whose name atom matches.  `fuel` bounds the walk (the C
loop has no bound of its own). -/
def xi_get_attrib_loop (pool : List (Nat × XiNode)) (depth nameAtom : Nat) :
    Nat → Nat → Nat
  | 0, _ => 0
  | fuel + 1, nodeAtom =>
    if nodeAtom = 0 then 0
    else
      match xi_node_addr pool nodeAtom with
      | none => 0
      | some nodep =>
        if nodep.xn_depth ≤ depth then 0
        else if nodep.xn_type ≠ XI_TYPE_ATTRIB then
          xi_get_attrib_loop pool depth nameAtom fuel nodep.xn_next
        else if nodep.xn_name = nameAtom then nodep.xn_contents
        else xi_get_attrib_loop pool depth nameAtom fuel nodep.xn_next

/-- xi_get_attrib (xiworkspace.c:230-264): a node not flagged as having
attributes short-circuits to the null atom; otherwise the sibling chain
starting at the node's contents atom is scanned. -/
def xi_get_attrib (pool : List (Nat × XiNode)) (nodep : XiNode)
    (nameAtom : Nat) (fuel : Nat) : Nat :=
  if nodep.xn_flags &&& XNF_ATTRIBS_PRESENT = 0 then 0
  else xi_get_attrib_loop pool nodep.xn_depth nameAtom fuel nodep.xn_contents

/-- Specification-side view of the scan: the list of records visited by
the sibling walk - from a start atom, while atoms stay nonzero and
resolvable and depths stay strictly below the starting node's. -/
def xi_child_chain (pool : List (Nat × XiNode)) (depth : Nat) :
    Nat → Nat → List XiNode
  | 0, _ => []
  | fuel + 1, nodeAtom =>
    if nodeAtom = 0 then []
    else
      match xi_node_addr pool nodeAtom with
      | none => []
      | some nodep =>
        if nodep.xn_depth ≤ depth then []
        else nodep :: xi_child_chain pool depth fuel nodep.xn_next

/-- Specification-side view of attribute selection: the contents atom of
the first attribute-typed record in the chain whose name atom matches, or
the null atom. -/
def xi_attrib_scan (chain : List XiNode) (nameAtom : Nat) : Nat :=
  match chain.find? (fun n => n.xn_type == XI_TYPE_ATTRIB &&
                              n.xn_name == nameAtom) with
  | some n => n.xn_contents
  | none => 0

/-! ## Workspace construction (xi_workspace_open)

The construction-time behavior of xi_workspace_open is modelled over an
oracle saying which child-pool opens succeed, and an explicit list of the
region's currently open segments.  The pa open routines (pa_istr_open,
pa_pat_open, pa_fixed_open, pa_arb_open - their sources are not in src) are
modelled from the spec: each either fails, changing nothing, or registers
one named segment; closing removes the segment.  Modelled from the spec:
the names xi_mk_name derives are deterministic and collision-free within
one region (spec section 6), so the eight derived segment names of
xi_workspace_open are an enumeration. -/

inductive XiSeg where
  | namesData
  | namesIdx
  | nsData
  | nsIdx
  | nodes
  | textData
  | nodesetChunks
  | nodesetInfo
deriving DecidableEq

/-- A handle to one opened pool: its segment name and its flag bits. -/
structure PaPool where
  seg : XiSeg
  flags : Nat
deriving DecidableEq

/-- Modelled from the spec: the zero-on-allocate policy flag bit of the
fixed slot pool; its numeric value is not observable here. -/
def PFF_INIT_ZERO : Nat := 1

/-- Modelled from the spec: a pool open - on success the segment becomes
open (flags clear); on failure nothing changes. -/
def pa_pool_open (ok : Bool) (s : XiSeg) (segs : List XiSeg) :
    Option PaPool × List XiSeg :=
  if ok then (some { seg := s, flags := 0 }, s :: segs) else (none, segs)

/-- Modelled from the spec: closing a pool releases its segment. -/
def pa_pool_close (p : PaPool) (segs : List XiSeg) : List XiSeg :=
  segs.erase p.seg

/-- Close a pool handle if it was opened (the `if (x != NULL) close(x)`
idiom of the fail block). -/
def pa_pool_close_opt : Option PaPool → List XiSeg → List XiSeg
  | none, segs => segs
  | some p, segs => pa_pool_close p segs

/-- pa_fixed_set_flags: set flag bits on an opened fixed pool. -/
def pa_fixed_set_flags (p : PaPool) (f : Nat) : PaPool :=
  { p with flags := p.flags ||| f }

/-- Which child opens succeed during one xi_workspace_open call, in the
order the source attempts them, plus whether the final calloc of the
workspace struct succeeds. -/
structure XiOpenOracle where
  namesData : Bool
  namesIdx : Bool
  nsData : Bool
  nsIdx : Bool
  nodes : Bool
  textData : Bool
  nodesetChunks : Bool
  nodesetInfo : Bool
  callocOk : Bool
deriving DecidableEq

/-- xi_namepool_open (xiworkspace.c:145-169): open the interned-string pool
and then its trie index; if the index open fails the string pool is closed
again and the call reports failure. -/
def xi_namepool_open (okData okIdx : Bool) (segs : List XiSeg) :
    Option (PaPool × PaPool) × List XiSeg :=
  let r1 := pa_pool_open okData XiSeg.namesData segs
  match r1.1 with
  | none => (none, r1.2)
  | some pip =>
    let r2 := pa_pool_open okIdx XiSeg.namesIdx r1.2
    match r2.1 with
    | none => (none, pa_pool_close pip r2.2)
    | some ppp => (some (pip, ppp), r2.2)

/-- xi_ns_open (xiworkspace.c:177-201): open the namespace-map fixed pool
and then its trie index; if the index open fails the fixed pool is closed
again and the call reports failure. -/
def xi_ns_open (okData okIdx : Bool) (segs : List XiSeg) :
    Option (PaPool × PaPool) × List XiSeg :=
  let r1 := pa_pool_open okData XiSeg.nsData segs
  match r1.1 with
  | none => (none, r1.2)
  | some pfp =>
    let r2 := pa_pool_open okIdx XiSeg.nsIdx r1.2
    match r2.1 with
    | none => (none, pa_pool_close pfp r2.2)
    | some ppp => (some (pfp, ppp), r2.2)

/-- The fail block of xi_workspace_open (xiworkspace.c:120-142): close, in
the source's order, every local that is non-NULL (the pip and ppp locals
of this function are never assigned and are always NULL). -/
def xi_workspace_fail (nodesetChunks nodesetInfo pap pip ppp nodes names
    namesIndex nsMap nsMapIndex : Option PaPool) (segs : List XiSeg) :
    List XiSeg :=
  pa_pool_close_opt nsMapIndex (pa_pool_close_opt nsMap
    (pa_pool_close_opt namesIndex (pa_pool_close_opt names
      (pa_pool_close_opt nodes (pa_pool_close_opt ppp
        (pa_pool_close_opt pip (pa_pool_close_opt pap
          (pa_pool_close_opt nodesetInfo
            (pa_pool_close_opt nodesetChunks segs)))))))))

/-- The pool handles of a fully constructed workspace
(xiworkspace.c:108-116). -/
structure XiWorkspacePools where
  xw_names : PaPool
  xw_names_index : PaPool
  xw_ns_map : PaPool
  xw_ns_map_index : PaPool
  xw_nodes : PaPool
  xw_textpool : PaPool
  xw_nodeset_chunks : PaPool
  xw_nodeset_info : PaPool
deriving DecidableEq

/-- xi_workspace_open (xiworkspace.c:50-143): open the name pool, the
namespace map, the node pool, the text pool and the two nodeset pools in
order; the two nodeset pools get the zero-on-allocate flag; on any failure
every previously opened child pool is closed via the fail block. -/
def xi_workspace_open (oc : XiOpenOracle) (segs : List XiSeg) :
    Option XiWorkspacePools × List XiSeg :=
  let r1 := xi_namepool_open oc.namesData oc.namesIdx segs
  match r1.1 with
  | none => (none, xi_workspace_fail none none none none none none
                     none none none none r1.2)
  | some np =>
    let r2 := xi_ns_open oc.nsData oc.nsIdx r1.2
    match r2.1 with
    | none => (none, xi_workspace_fail none none none none none none
                       (some np.1) (some np.2) none none r2.2)
    | some nsp =>
      let r3 := pa_pool_open oc.nodes XiSeg.nodes r2.2
      match r3.1 with
      | none => (none, xi_workspace_fail none none none none none none
                         (some np.1) (some np.2) (some nsp.1) (some nsp.2)
                         r3.2)
      | some nodes =>
        let r4 := pa_pool_open oc.textData XiSeg.textData r3.2
        match r4.1 with
        | none => (none, xi_workspace_fail none none none none none
                           (some nodes) (some np.1) (some np.2)
                           (some nsp.1) (some nsp.2) r4.2)
        | some pap =>
          let r5 := pa_pool_open oc.nodesetChunks XiSeg.nodesetChunks r4.2
          match r5.1 with
          | none => (none, xi_workspace_fail none none (some pap) none none
                             (some nodes) (some np.1) (some np.2)
                             (some nsp.1) (some nsp.2) r5.2)
          | some nc0 =>
            let nc := pa_fixed_set_flags nc0 PFF_INIT_ZERO
            let r6 := pa_pool_open oc.nodesetInfo XiSeg.nodesetInfo r5.2
            match r6.1 with
            | none => (none, xi_workspace_fail (some nc) none (some pap)
                               none none (some nodes) (some np.1) (some np.2)
                               (some nsp.1) (some nsp.2) r6.2)
            | some ni0 =>
              let ni := pa_fixed_set_flags ni0 PFF_INIT_ZERO
              if oc.callocOk then
                (some { xw_names := np.1, xw_names_index := np.2,
                        xw_ns_map := nsp.1, xw_ns_map_index := nsp.2,
                        xw_nodes := nodes, xw_textpool := pap,
                        xw_nodeset_chunks := nc, xw_nodeset_info := ni },
                 r6.2)
              else
                (none, xi_workspace_fail (some nc) (some ni) (some pap)
                         none none (some nodes) (some np.1) (some np.2)
                         (some nsp.1) (some nsp.2) r6.2)

/-! ## The fixed slot pool (pa_fixed)

Modelled from the spec: the fixed slot pool (its source is not in src; src
holds only its test driver tests/pa/pa_03.c).  Records of one fixed size
live in power-of-two-sized chunks of `2 ^ shift` records; an atom
decomposes into a chunk index (`atom >>> shift`) and an offset; chunks,
once allocated, are never moved or freed individually and growth only
appends new chunks.  Freed records are threaded into a singly linked free
list stored inside the freed record's own memory (the record's first field
holds the next free atom); allocation pops the head of the free list
before extending the chunk table; `maxAtoms` is a hard ceiling and
exceeding it is the recoverable Exhausted failure (the null atom).  Record
contents are modelled as one value per atom (`mem`), which for a freed
record is its free-list link; `freeList` is the chain read off those
links, head first, and `live` the set of currently allocated atoms. -/
structure PaFixed where
  shift : Nat
  maxAtoms : Nat
  chunkCount : Nat
  top : Nat
  mem : Nat → Nat
  freeList : List Nat
  live : List Nat
  initZero : Bool

/-- pf_free: the head of the free list (the null atom when empty). -/
def pf_free (pf : PaFixed) : Nat := pf.freeList.headD 0

/-- The free list is stored inside the freed records themselves: each
record on it holds the atom of the next one (the null atom at the end). -/
def PaThreaded (mem : Nat → Nat) : List Nat → Prop
  | [] => True
  | a :: rest => mem a = rest.headD 0 ∧ PaThreaded mem rest

/-- pa_fixed_atom_addr, modelled from the spec: an atom resolves to
(chunk index, offset within chunk) purely from the atom and the shift. -/
def pa_fixed_atom_addr (pf : PaFixed) (atom : Nat) : Nat × Nat :=
  (atom >>> pf.shift, atom % 2 ^ pf.shift)

/-- pa_fixed_alloc_atom, modelled from the spec: pop the free list head if
any (zeroing the record under the zero-on-allocate policy); otherwise hand
out the next never-used atom, appending chunks as needed, or fail with the
null atom when the `maxAtoms` ceiling is reached. -/
def pa_fixed_alloc_atom (pf : PaFixed) : Nat × PaFixed :=
  match pf.freeList with
  | a :: rest =>
    let mem1 := if pf.initZero then (fun x => if x = a then 0 else pf.mem x)
                else pf.mem
    (a, { pf with freeList := rest, mem := mem1, live := a :: pf.live })
  | [] =>
    if pf.maxAtoms < pf.top then (0, pf)
    else
      let a := pf.top
      let mem1 := if pf.initZero then (fun x => if x = a then 0 else pf.mem x)
                  else pf.mem
      (a, { pf with top := a + 1,
                    chunkCount := max pf.chunkCount (a >>> pf.shift + 1),
                    mem := mem1, live := a :: pf.live })

/-- pa_fixed_free_atom, modelled from the spec: thread the record onto the
free list, its first field now holding the previous head.  Freeing an atom
that is not live is undefined and must be guarded by the caller; the model
realizes the guarded behavior (no effect). -/
def pa_fixed_free_atom (pf : PaFixed) (a : Nat) : PaFixed :=
  if a ∈ pf.live then
    { pf with mem := fun x => if x = a then pf_free pf else pf.mem x,
              freeList := a :: pf.freeList,
              live := pf.live.erase a }
  else pf

/-- A caller storing a value through the reference obtained from
pa_fixed_atom_addr; writing through a stale reference (a freed atom) is
undefined and must be guarded by the caller - the model realizes the
guarded behavior. -/
def pa_fixed_write_atom (pf : PaFixed) (a v : Nat) : PaFixed :=
  if a ∈ pf.live then
    { pf with mem := fun x => if x = a then v else pf.mem x }
  else pf

/-- One workload step against a fixed slot pool: allocate (which may grow
the chunk table), free, or write a record. -/
inductive PaOp where
  | alloc : PaOp
  | free : Nat → PaOp
  | write : Nat → Nat → PaOp

def paFixedStep (pf : PaFixed) : PaOp → PaFixed
  | PaOp.alloc => (pa_fixed_alloc_atom pf).2
  | PaOp.free a => pa_fixed_free_atom pf a
  | PaOp.write a v => pa_fixed_write_atom pf a v

/-- Whether a workload step frees or overwrites the given atom. -/
def PaOp.touches (a : Nat) : PaOp → Bool
  | PaOp.alloc => false
  | PaOp.free b => b = a
  | PaOp.write b _ => b = a

/-- Well-formedness of a fixed slot pool: atoms start at 1 and stay below
`top`; live atoms and free-list atoms are disjoint and duplicate-free; the
free list is threaded through the freed records; and every issued atom's
chunk is in the chunk table. -/
structure PaFixed.WF (pf : PaFixed) : Prop where
  top_pos : 1 ≤ pf.top
  live_pos : ∀ a ∈ pf.live, 1 ≤ a
  live_lt : ∀ a ∈ pf.live, a < pf.top
  free_pos : ∀ a ∈ pf.freeList, 1 ≤ a
  free_lt : ∀ a ∈ pf.freeList, a < pf.top
  disj : ∀ a ∈ pf.live, a ∉ pf.freeList
  live_nodup : pf.live.Nodup
  free_nodup : pf.freeList.Nodup
  threaded : PaThreaded pf.mem pf.freeList
  covered : ∀ a, 1 ≤ a → a < pf.top → a >>> pf.shift < pf.chunkCount

/-! ## The name-pool key length

xi_namepool_atom computes its trie key length as
`uint16_t len = strlen(data) + 1` (xiworkspace.c:212); the value is what
survives the uint16_t store, i.e. the byte length plus one reduced modulo
2^16. -/

def xi_namepool_len (data : String) : Nat := (data.length + 1) % 65536

/-- A 65535-byte string: the shortest input on which the uint16_t length
computation wraps to 0. -/
def xiLongInput : String := String.mk (List.replicate 65535 'a')

/-- The attribute-scan boundary scenario of the spec: a node at depth 1
whose children at depth 2 are two attributes (name atoms 10 and 11) and
one element child (name atom 12). -/
def demoNodePool : List (Nat × XiNode) :=
  [ (2, { xn_type := XI_TYPE_ATTRIB, xn_ns_map := 0, xn_name := 10,
          xn_depth := 2, xn_flags := 0, xn_next := 3, xn_contents := 100 }),
    (3, { xn_type := XI_TYPE_ATTRIB, xn_ns_map := 0, xn_name := 11,
          xn_depth := 2, xn_flags := 0, xn_next := 4, xn_contents := 101 }),
    (4, { xn_type := 1, xn_ns_map := 0, xn_name := 12,
          xn_depth := 2, xn_flags := 0, xn_next := 0, xn_contents := 102 }) ]

/-- The starting node of the boundary scenario: flagged as having
attributes, its first child being atom 2. -/
def demoStart : XiNode :=
  { xn_type := 1, xn_ns_map := 0, xn_name := 20, xn_depth := 1,
    xn_flags := XNF_ATTRIBS_PRESENT, xn_next := 0, xn_contents := 2 }

/-! ## Construction rollback (C6) and zero-on-allocate flags (C10) -/

/-- The oracle of a run in which every child open and the final alloc
succeed. -/
def xiAllOk : XiOpenOracle :=
  { namesData := true, namesIdx := true, nsData := true, nsIdx := true,
    nodes := true, textData := true, nodesetChunks := true,
    nodesetInfo := true, callocOk := true }

/-- The pool handles a fully successful xi_workspace_open produces. -/
def demoPools : XiWorkspacePools :=
  { xw_names := { seg := XiSeg.namesData, flags := 0 },
    xw_names_index := { seg := XiSeg.namesIdx, flags := 0 },
    xw_ns_map := { seg := XiSeg.nsData, flags := 0 },
    xw_ns_map_index := { seg := XiSeg.nsIdx, flags := 0 },
    xw_nodes := { seg := XiSeg.nodes, flags := 0 },
    xw_textpool := { seg := XiSeg.textData, flags := 0 },
    xw_nodeset_chunks := { seg := XiSeg.nodesetChunks, flags := 1 },
    xw_nodeset_info := { seg := XiSeg.nodesetInfo, flags := 1 } }

/-- A freshly set-up fixed pool: two records per chunk, a ceiling of 100
atoms, zero-on-allocate enabled (pa_03.c sets up a pool the same way and
then replays allocate/free workloads against it). -/
def demoFixed : PaFixed :=
  { shift := 1, maxAtoms := 100, chunkCount := 0, top := 1,
    mem := fun _ => 0, freeList := [], live := [], initZero := true }

theorem paPatGetAtom_mem {κ : Type} [DecidableEq κ]
    {idx : List (κ × Nat)} {k : κ} (h : paPatGetAtom idx k ≠ 0) :
    (k, paPatGetAtom idx k) ∈ idx := by
  induction idx with
  | nil => simp [paPatGetAtom] at h
  | cons e rest ih =>
    by_cases hk : e.1 = k
    · subst hk
      simp [paPatGetAtom]
    · simp only [paPatGetAtom, if_neg hk] at h ⊢
      exact List.mem_cons_of_mem e (ih h)

theorem paPatGetAtom_of_mem {κ : Type} [DecidableEq κ]
    {idx : List (κ × Nat)} {k : κ} {a : Nat}
    (hmem : (k, a) ∈ idx) (hnd : (idx.map Prod.fst).Nodup) :
    paPatGetAtom idx k = a := by
  induction idx with
  | nil => simp at hmem
  | cons e rest ih =>
    simp only [List.map_cons, List.nodup_cons] at hnd
    rcases List.mem_cons.mp hmem with h | h
    · subst h
      simp [paPatGetAtom]
    · have hne : e.1 ≠ k := by
        intro hk
        exact hnd.1 (hk ▸ (List.mem_map.mpr ⟨(k, a), h, rfl⟩))
      simp only [paPatGetAtom, if_neg hne]
      exact ih h hnd.2

theorem paPatHasKey_false_of_getAtom_zero {κ : Type} [DecidableEq κ]
    {idx : List (κ × Nat)} {k : κ}
    (hpos : ∀ e ∈ idx, 1 ≤ e.2) (h : paPatGetAtom idx k = 0) :
    paPatHasKey idx k = false := by
  induction idx with
  | nil => simp [paPatHasKey]
  | cons e rest ih =>
    by_cases hk : e.1 = k
    · simp only [paPatGetAtom, if_pos hk] at h
      have := hpos e (List.mem_cons_self e rest)
      omega
    · simp only [paPatGetAtom, if_neg hk] at h
      simp only [paPatHasKey, if_neg hk]
      exact ih (fun f hf => hpos f (List.mem_cons_of_mem e hf)) h

theorem paPatHasKey_true_of_getAtom_ne {κ : Type} [DecidableEq κ]
    {idx : List (κ × Nat)} {k : κ} (h : paPatGetAtom idx k ≠ 0) :
    paPatHasKey idx k = true := by
  induction idx with
  | nil => simp [paPatGetAtom] at h
  | cons e rest ih =>
    by_cases hk : e.1 = k
    · simp [paPatHasKey, hk]
    · simp only [paPatGetAtom, if_neg hk] at h
      simp only [paPatHasKey, if_neg hk]
      exact ih h

theorem paPatGetAtom_append {κ : Type} [DecidableEq κ]
    (l1 l2 : List (κ × Nat)) (k : κ) (h : paPatGetAtom l1 k ≠ 0) :
    paPatGetAtom (l1 ++ l2) k = paPatGetAtom l1 k := by
  induction l1 with
  | nil => simp [paPatGetAtom] at h
  | cons e rest ih =>
    by_cases hk : e.1 = k
    · simp [paPatGetAtom, hk]
    · simp only [paPatGetAtom, if_neg hk] at h ⊢
      exact ih h

theorem paPatHasKey_false_not_mem {κ : Type} [DecidableEq κ]
    {idx : List (κ × Nat)} {k : κ} {a : Nat}
    (h : paPatHasKey idx k = false) : (k, a) ∉ idx := by
  induction idx with
  | nil => simp
  | cons e rest ih =>
    by_cases hk : e.1 = k
    · simp [paPatHasKey, hk] at h
    · simp only [paPatHasKey, if_neg hk] at h
      intro hmem
      rcases List.mem_cons.mp hmem with heq | hmem2
      · exact hk (by rw [← heq])
      · exact ih h hmem2

/-- Behavior of xi_namepool_atom on a trie miss with create set: the string
is stored under the next fresh atom and the trie gains its entry. -/
theorem xi_namepool_atom_miss {np : NamePool} {s : String}
    (hwf : np.WF) (h : paPatGetAtom np.index s = 0) :
    xi_namepool_atom np s true =
      (np.nextAtom,
       { strings := (np.nextAtom, s) :: np.strings, nextAtom := np.nextAtom + 1,
         index := (s, np.nextAtom) :: np.index }) := by
  have hkey : paPatHasKey np.index s = false :=
    paPatHasKey_false_of_getAtom_zero hwf.atom_pos h
  simp [xi_namepool_atom, xi_namepool_atomR, h, paPatAdd, hkey]

/-- Behavior of xi_namepool_atom on a trie hit: the existing atom is
returned and the pool is untouched (for either value of create). -/
theorem xi_namepool_atom_hit {np : NamePool} {s : String} {c : Bool}
    (h : paPatGetAtom np.index s ≠ 0) :
    xi_namepool_atom np s c = (paPatGetAtom np.index s, np) := by
  simp [xi_namepool_atom, xi_namepool_atomR, h]

theorem xi_namepool_atom_miss_fst {np : NamePool} {s : String}
    (hwf : np.WF) (h : paPatGetAtom np.index s = 0) :
    (xi_namepool_atom np s true).1 = np.nextAtom := by
  rw [xi_namepool_atom_miss hwf h]

theorem xi_namepool_atom_miss_index {np : NamePool} {s : String}
    (hwf : np.WF) (h : paPatGetAtom np.index s = 0) :
    ((xi_namepool_atom np s true).2).index = (s, np.nextAtom) :: np.index := by
  rw [xi_namepool_atom_miss hwf h]

theorem xi_namepool_atom_miss_next {np : NamePool} {s : String}
    (hwf : np.WF) (h : paPatGetAtom np.index s = 0) :
    ((xi_namepool_atom np s true).2).nextAtom = np.nextAtom + 1 := by
  rw [xi_namepool_atom_miss hwf h]

/-- With create clear, xi_namepool_atom never mutates the pool. -/
theorem xi_namepool_atom_lookup_frame (np : NamePool) (s : String) :
    (xi_namepool_atom np s false).2 = np := by
  by_cases h : paPatGetAtom np.index s = 0
  · simp [xi_namepool_atom, xi_namepool_atomR, h]
  · simp [xi_namepool_atom, xi_namepool_atomR, h]

/-- Interning preserves well-formedness of the name pool. -/
theorem xi_namepool_atom_WF {np : NamePool} {s : String} {c : Bool}
    (hwf : np.WF) : ((xi_namepool_atom np s c).2).WF := by
  by_cases h : paPatGetAtom np.index s = 0
  · cases c with
    | false => simpa [xi_namepool_atom_lookup_frame] using hwf
    | true =>
      have hnotmem : ∀ a : Nat, (s, a) ∉ np.index := fun a =>
        paPatHasKey_false_not_mem
          (paPatHasKey_false_of_getAtom_zero hwf.atom_pos h)
      have hidx := xi_namepool_atom_miss_index hwf h
      have hnext := xi_namepool_atom_miss_next hwf h
      refine ⟨?_, ?_, ?_, ?_, ?_⟩
      · rw [hnext]; omega
      · rw [hidx]
        intro e he
        rcases List.mem_cons.mp he with rfl | he2
        · exact hwf.next_pos
        · exact hwf.atom_pos e he2
      · rw [hidx, hnext]
        intro e he
        rcases List.mem_cons.mp he with rfl | he2
        · exact Nat.lt_succ_self _
        · have := hwf.atom_lt e he2; omega
      · rw [hidx]
        refine List.Nodup.cons ?_ hwf.keys_nodup
        intro hs
        rcases List.mem_map.mp hs with ⟨e, he, hfst⟩
        exact hnotmem e.2 (by cases e; simp_all)
      · rw [hidx]
        intro e he f hf hne
        rcases List.mem_cons.mp he with rfl | he2 <;>
          rcases List.mem_cons.mp hf with rfl | hf2
        · simp at hne
        · have := hwf.atom_lt f hf2
          show np.nextAtom ≠ f.2
          omega
        · have := hwf.atom_lt e he2
          show e.2 ≠ np.nextAtom
          omega
        · exact hwf.inj e he2 f hf2 hne
  · rw [xi_namepool_atom_hit h]
    exact hwf

/-- Interning with create set yields an entry for the string in the trie. -/
theorem xi_namepool_atom_mem_self {np : NamePool} {s : String}
    (hwf : np.WF) :
    (s, (xi_namepool_atom np s true).1) ∈ ((xi_namepool_atom np s true).2).index := by
  by_cases h : paPatGetAtom np.index s = 0
  · rw [xi_namepool_atom_miss hwf h]
    exact List.mem_cons_self _ _
  · rw [xi_namepool_atom_hit h]
    exact paPatGetAtom_mem h

/-- Interning only grows the trie index. -/
theorem xi_namepool_atom_mem_mono {np : NamePool} {s : String} {c : Bool}
    (hwf : np.WF) {e : String × Nat} (he : e ∈ np.index) :
    e ∈ ((xi_namepool_atom np s c).2).index := by
  by_cases h : paPatGetAtom np.index s = 0
  · cases c with
    | false => simpa [xi_namepool_atom_lookup_frame] using he
    | true =>
      rw [xi_namepool_atom_miss hwf h]
      exact List.mem_cons_of_mem _ he
  · rw [xi_namepool_atom_hit h]
    exact he

/-- Interning never decreases the fresh-atom counter. -/
theorem xi_namepool_atom_nextAtom_mono (np : NamePool) (s : String) (c : Bool) :
    np.nextAtom ≤ ((xi_namepool_atom np s c).2).nextAtom := by
  by_cases h : paPatGetAtom np.index s = 0
  · cases c with
    | false => simp [xi_namepool_atom_lookup_frame]
    | true => simp [xi_namepool_atom, xi_namepool_atomR, h, paPatAdd]
  · rw [xi_namepool_atom_hit h]

/-- The atom returned by interning with create set is nonzero. -/
theorem xi_namepool_atom_pos {np : NamePool} {s : String}
    (hwf : np.WF) : 1 ≤ (xi_namepool_atom np s true).1 := by
  by_cases h : paPatGetAtom np.index s = 0
  · rw [xi_namepool_atom_miss hwf h]
    exact hwf.next_pos
  · rw [xi_namepool_atom_hit h]
    omega

/-- The atom returned by interning with create set is bounded by the
resulting fresh-atom counter. -/
theorem xi_namepool_atom_lt_next {np : NamePool} {s : String}
    (hwf : np.WF) :
    (xi_namepool_atom np s true).1 < ((xi_namepool_atom np s true).2).nextAtom := by
  have hwf2 : ((xi_namepool_atom np s true).2).WF := xi_namepool_atom_WF hwf
  exact hwf2.atom_lt _ (xi_namepool_atom_mem_self hwf)

/-- After interning with create set, looking the string up in the resulting
trie returns the interned atom. -/
theorem xi_namepool_atom_get_after {np : NamePool} {s : String}
    (hwf : np.WF) :
    paPatGetAtom ((xi_namepool_atom np s true).2).index s =
      (xi_namepool_atom np s true).1 := by
  have hwf2 : ((xi_namepool_atom np s true).2).WF := xi_namepool_atom_WF hwf
  exact paPatGetAtom_of_mem (xi_namepool_atom_mem_self hwf) hwf2.keys_nodup

/-- Interning s does not change the lookup result of any other string. -/
theorem xi_namepool_atom_get_frame {np : NamePool} {s t : String} {c : Bool}
    (hwf : np.WF) (hne : t ≠ s) :
    paPatGetAtom ((xi_namepool_atom np s c).2).index t =
      paPatGetAtom np.index t := by
  by_cases h : paPatGetAtom np.index s = 0
  · cases c with
    | false => simp [xi_namepool_atom_lookup_frame]
    | true =>
      have hst : ¬ (s = t) := fun hst => hne hst.symm
      rw [xi_namepool_atom_miss_index hwf h]
      simp [paPatGetAtom, hst]
  · rw [xi_namepool_atom_hit h]

/-! ## Name interning: idempotence (C1) -/

/-- Interning any string preserves all nonzero lookup results. -/
theorem xi_namepool_atom_get_preserve {np : NamePool} {s : String} {c : Bool}
    (hwf : np.WF) {t : String} (ht : paPatGetAtom np.index t ≠ 0) :
    paPatGetAtom ((xi_namepool_atom np s c).2).index t =
      paPatGetAtom np.index t := by
  by_cases hts : t = s
  · subst hts
    rw [xi_namepool_atom_hit ht]
  · exact xi_namepool_atom_get_frame hwf hts

theorem emptyNamePool_WF : emptyNamePool.WF := by
  constructor <;> simp [emptyNamePool]

theorem emptyWorkspace_WF : emptyWorkspace.WF := by
  constructor <;> simp [emptyWorkspace, emptyNamePool_WF]

/-- Claim C1: name interning is idempotent - with create set, interning
the same string twice in a row yields the same atom both times; and with
create clear, interning a string for which no atom has been created
returns the null "no atom" sentinel, leaving the pool untouched (a normal
outcome, not a failure). -/
theorem xi_namepool_atom_idempotent (np : NamePool) (s : String)
    (hwf : np.WF) :
    (xi_namepool_atom ((xi_namepool_atom np s true).2) s true).1 =
      (xi_namepool_atom np s true).1
    ∧ (paPatGetAtom np.index s = 0 → xi_namepool_atom np s false = (0, np)) := by
  constructor
  · have h2 : paPatGetAtom ((xi_namepool_atom np s true).2).index s =
        (xi_namepool_atom np s true).1 := xi_namepool_atom_get_after hwf
    have hpos : 1 ≤ (xi_namepool_atom np s true).1 := xi_namepool_atom_pos hwf
    have hne : paPatGetAtom ((xi_namepool_atom np s true).2).index s ≠ 0 := by
      rw [h2]; omega
    rw [xi_namepool_atom_hit hne]
    exact h2
  · intro h
    simp [xi_namepool_atom, xi_namepool_atomR, h]

/-- Witness for C1 at concrete inputs: interning "foo" twice into a fresh
pool returns atom 1 both times, and a lookup of "bar" before any creation
returns the null atom. -/
theorem xi_namepool_atom_idempotent_witness :
    ((xi_namepool_atom ((xi_namepool_atom emptyNamePool "foo" true).2)
        "foo" true).1 = (xi_namepool_atom emptyNamePool "foo" true).1
      ∧ (xi_namepool_atom emptyNamePool "foo" true).1 = 1)
    ∧ xi_namepool_atom emptyNamePool "bar" false = (0, emptyNamePool) := by
  refine ⟨⟨(xi_namepool_atom_idempotent emptyNamePool "foo" emptyNamePool_WF).1,
           by decide⟩, ?_⟩
  exact (xi_namepool_atom_idempotent emptyNamePool "bar" emptyNamePool_WF).2
    (by decide)

/-! ## Namespace interning: pair distinction (C2) -/

/-- Combined facts about one optional interning step of xi_ns_find (a
non-empty string is interned with create forced on; an empty one yields
the null atom and leaves the pool alone). -/
theorem xi_ns_intern_step (np : NamePool) (s : String) (hwf : np.WF)
    {pa : Nat} {np1 : NamePool}
    (hr : (if s ≠ "" then xi_namepool_atom np s true else (0, np)) = (pa, np1)) :
    np1.WF ∧ np.nextAtom ≤ np1.nextAtom ∧ pa < np1.nextAtom ∧
    (s ≠ "" → paPatGetAtom np1.index s = pa ∧ 1 ≤ pa) ∧
    (s = "" → pa = 0 ∧ np1 = np) ∧
    (∀ t : String, paPatGetAtom np.index t ≠ 0 →
       paPatGetAtom np1.index t = paPatGetAtom np.index t) := by
  by_cases hs : s = ""
  · rw [if_neg (by simp [hs])] at hr
    obtain ⟨h1, h2⟩ := Prod.mk.injEq .. ▸ hr
    subst h1
    subst h2
    refine ⟨hwf, le_refl _, hwf.next_pos, ?_, fun _ => ⟨rfl, rfl⟩, fun t _ => rfl⟩
    intro hne
    exact absurd hs hne
  · rw [if_pos hs] at hr
    have h1 : (xi_namepool_atom np s true).1 = pa := by rw [hr]
    have h2 : (xi_namepool_atom np s true).2 = np1 := by rw [hr]
    refine ⟨h2 ▸ xi_namepool_atom_WF hwf,
            h2 ▸ xi_namepool_atom_nextAtom_mono np s true,
            h1 ▸ h2 ▸ xi_namepool_atom_lt_next hwf,
            fun _ => ⟨h1 ▸ h2 ▸ xi_namepool_atom_get_after hwf,
                      h1 ▸ xi_namepool_atom_pos hwf⟩,
            fun he => absurd he hs,
            fun t ht => h2 ▸ xi_namepool_atom_get_preserve hwf ht⟩

/-- Evaluation of xi_ns_find with create set, given the results of the two
interning steps: on a pair miss a fresh ns-map atom is allocated and
indexed; on a hit the indexed atom is returned; the workspace keeps the
updated name pool in both cases. -/
theorem xi_ns_find_eval (w : XiWorkspace) (p u : String)
    {pa ua : Nat} {names1 names2 : NamePool}
    (hp : (if p ≠ "" then xi_namepool_atom w.names p true
           else (0, w.names)) = (pa, names1))
    (hpnz : p ≠ "" → pa ≠ 0)
    (hu : (if u ≠ "" then xi_namepool_atom names1 u true
           else (0, names1)) = (ua, names2))
    (hunz : u ≠ "" → ua ≠ 0)
    (hpos : ∀ e ∈ w.nsIndex, 1 ≤ e.2) :
    xi_ns_find w p u true =
      (if paPatGetAtom w.nsIndex (pa, ua) = 0 then
        (w.nsNext,
         { names := names2, nsMap := (w.nsNext, (pa, ua)) :: w.nsMap,
           nsNext := w.nsNext + 1,
           nsIndex := ((pa, ua), w.nsNext) :: w.nsIndex })
       else (paPatGetAtom w.nsIndex (pa, ua), { w with names := names2 })) := by
  rw [xi_ns_find, xi_ns_findR]
  simp only [hp]
  have hc1 : ¬ (p ≠ "" ∧ pa = 0) := by
    rintro ⟨hne, hz⟩
    exact hpnz hne hz
  rw [if_neg hc1]
  simp only [hu]
  have hc2 : ¬ (u ≠ "" ∧ ua = 0) := by
    rintro ⟨hne, hz⟩
    exact hunz hne hz
  rw [if_neg hc2]
  by_cases hmiss : paPatGetAtom w.nsIndex (pa, ua) = 0
  · have hkey : paPatHasKey w.nsIndex (pa, ua) = false :=
      paPatHasKey_false_of_getAtom_zero hpos hmiss
    simp [hmiss, paPatAdd, List.nil_append, hkey]
  · simp [hmiss]

/-- Characterization of xi_ns_find with create set on a well-formed
workspace: it succeeds with a nonzero ns-map atom indexed under the pair
of name atoms of the két strings, preserves existing namespace entries and
name lookups, keeps the workspace well-formed, and repeating the exact
call returns the same atom without further change. -/
theorem xi_ns_find_create_props (w : XiWorkspace) (p u : String)
    (hwf : w.WF) :
    ∃ pa ua a w',
      xi_ns_find w p u true = (a, w') ∧ w'.WF ∧ 1 ≤ a ∧
      ((pa, ua), a) ∈ w'.nsIndex ∧
      (∀ e ∈ w.nsIndex, e ∈ w'.nsIndex) ∧
      (p ≠ "" → paPatGetAtom w'.names.index p = pa ∧ 1 ≤ pa) ∧
      (p = "" → pa = 0) ∧
      (u ≠ "" → paPatGetAtom w'.names.index u = ua ∧ 1 ≤ ua) ∧
      (u = "" → ua = 0) ∧
      (∀ t : String, paPatGetAtom w.names.index t ≠ 0 →
        paPatGetAtom w'.names.index t = paPatGetAtom w.names.index t) ∧
      xi_ns_find w' p u true = (a, w') := by
  rcases hp : (if p ≠ "" then xi_namepool_atom w.names p true
               else (0, w.names)) with ⟨pa, names1⟩
  obtain ⟨h1wf, h1mono, h1lt, h1get, h1emp, h1pres⟩ :=
    xi_ns_intern_step w.names p hwf.names_wf hp
  rcases hu : (if u ≠ "" then xi_namepool_atom names1 u true
               else (0, names1)) with ⟨ua, names2⟩
  obtain ⟨h2wf, h2mono, h2lt, h2get, h2emp, h2pres⟩ :=
    xi_ns_intern_step names1 u h1wf hu
  have hpnz : p ≠ "" → pa ≠ 0 := fun hne => by
    have := (h1get hne).2; omega
  have hunz : u ≠ "" → ua ≠ 0 := fun hne => by
    have := (h2get hne).2; omega
  have heval := xi_ns_find_eval w p u hp hpnz hu hunz hwf.ns_atom_pos
  -- lookups of p and u in the final name pool
  have hgetp : p ≠ "" → paPatGetAtom names2.index p = pa ∧ 1 ≤ pa := by
    intro hne
    obtain ⟨hg, hpos⟩ := h1get hne
    refine ⟨?_, hpos⟩
    rw [h2pres p (by omega), hg]
  have hgetu : u ≠ "" → paPatGetAtom names2.index u = ua ∧ 1 ≤ ua := h2get
  have hpres12 : ∀ t : String, paPatGetAtom w.names.index t ≠ 0 →
      paPatGetAtom names2.index t = paPatGetAtom w.names.index t := by
    intro t ht
    rw [h2pres t (by rw [h1pres t ht]; exact ht), h1pres t ht]
  -- the second interning pass leaves names2 fixed
  have hp2 : (if p ≠ "" then xi_namepool_atom names2 p true
              else (0, names2)) = (pa, names2) := by
    by_cases hpe : p = ""
    · rw [if_neg (by simp [hpe])]
      obtain ⟨hz, -⟩ := h1emp hpe
      rw [hz]
    · rw [if_pos hpe]
      obtain ⟨hg, hpos⟩ := hgetp hpe
      have := @xi_namepool_atom_hit names2 p true (by rw [hg]; omega)
      rw [this, hg]
  have hu2 : (if u ≠ "" then xi_namepool_atom names2 u true
              else (0, names2)) = (ua, names2) := by
    by_cases hue : u = ""
    · rw [if_neg (by simp [hue])]
      obtain ⟨hz, -⟩ := h2emp hue
      rw [hz]
    · rw [if_pos hue]
      obtain ⟨hg, hpos⟩ := hgetu hue
      have := @xi_namepool_atom_hit names2 u true (by rw [hg]; omega)
      rw [this, hg]
  by_cases hmiss : paPatGetAtom w.nsIndex (pa, ua) = 0
  · -- pair not yet present: a fresh ns-map atom is created and indexed
    rw [if_pos hmiss] at heval
    set w' : XiWorkspace :=
      { names := names2, nsMap := (w.nsNext, (pa, ua)) :: w.nsMap,
        nsNext := w.nsNext + 1,
        nsIndex := ((pa, ua), w.nsNext) :: w.nsIndex } with hw'
    have hnotmem : ∀ x : Nat, ((pa, ua), x) ∉ w.nsIndex := fun x =>
      paPatHasKey_false_not_mem
        (paPatHasKey_false_of_getAtom_zero hwf.ns_atom_pos hmiss)
    have hwf' : w'.WF := by
      refine ⟨h2wf, by simp [hw'], ?_, ?_, ?_, ?_, ?_⟩
      · intro e he
        rcases List.mem_cons.mp he with rfl | he2
        · simp [hw']
          exact hwf.ns_next_pos
        · exact hwf.ns_atom_pos e he2
      · intro e he
        rcases List.mem_cons.mp he with rfl | he2
        · simp [hw']
        · have := hwf.ns_atom_lt e he2
          simp [hw']
          omega
      · simp only [hw', List.map_cons]
        refine List.Nodup.cons ?_ hwf.ns_keys_nodup
        intro hs
        rcases List.mem_map.mp hs with ⟨e, he, hfst⟩
        exact hnotmem e.2 (by cases e; simp_all)
      · intro e he f hf hne
        rcases List.mem_cons.mp he with rfl | he2 <;>
          rcases List.mem_cons.mp hf with rfl | hf2
        · simp at hne
        · have := hwf.ns_atom_lt f hf2
          show w.nsNext ≠ f.2
          omega
        · have := hwf.ns_atom_lt e he2
          show e.2 ≠ w.nsNext
          omega
        · exact hwf.ns_inj e he2 f hf2 hne
      · intro e he
        rcases List.mem_cons.mp he with rfl | he2
        · constructor
          · show pa < names2.nextAtom
            omega
          · show ua < names2.nextAtom
            omega
        · obtain ⟨hb1, hb2⟩ := hwf.ns_key_bound e he2
          constructor
          · show e.1.1 < names2.nextAtom
            omega
          · show e.1.2 < names2.nextAtom
            omega
    refine ⟨pa, ua, w.nsNext, w', heval, hwf', hwf.ns_next_pos, ?_, ?_,
            hgetp, fun h => (h1emp h).1, hgetu, fun h => (h2emp h).1,
            hpres12, ?_⟩
    · simp [hw']
    · intro e he
      simp [hw']
      right
      exact he
    · -- repeating the call: both interns hit, the pair lookup hits
      have hget' : paPatGetAtom w'.nsIndex (pa, ua) = w.nsNext := by
        simp [hw', paPatGetAtom]
      have heval2 := xi_ns_find_eval w' p u hp2 hpnz hu2 hunz hwf'.ns_atom_pos
      have hnz : 1 ≤ w.nsNext := hwf.ns_next_pos
      rw [if_neg (by rw [hget']; omega)] at heval2
      rw [heval2, hget']
  · -- pair already present: its atom is returned, nothing else changes
    rw [if_neg hmiss] at heval
    set a := paPatGetAtom w.nsIndex (pa, ua) with ha
    set w' : XiWorkspace := { w with names := names2 } with hw'
    have hmem : ((pa, ua), a) ∈ w.nsIndex := paPatGetAtom_mem hmiss
    have hapos : 1 ≤ a := hwf.ns_atom_pos _ hmem
    have hwf' : w'.WF := by
      refine ⟨h2wf, hwf.ns_next_pos, hwf.ns_atom_pos, hwf.ns_atom_lt,
              hwf.ns_keys_nodup, hwf.ns_inj, ?_⟩
      intro e he
      obtain ⟨hb1, hb2⟩ := hwf.ns_key_bound e he
      constructor
      · show e.1.1 < names2.nextAtom
        omega
      · show e.1.2 < names2.nextAtom
        omega
    refine ⟨pa, ua, a, w', heval, hwf', hapos, hmem, fun e he => he,
            hgetp, fun h => (h1emp h).1, hgetu, fun h => (h2emp h).1,
            hpres12, ?_⟩
    have heval2 := xi_ns_find_eval w' p u hp2 hpnz hu2 hunz hwf'.ns_atom_pos
    have hget' : paPatGetAtom w'.nsIndex (pa, ua) = a := by
      simp [hw', ← ha]
    rw [if_neg (by rw [hget']; omega)] at heval2
    rw [heval2, hget']

/-- Claim C2: namespace interning distinguishes pairs, not URIs - two
creating calls with distinct prefixes and the same URI return distinct
namespace-map atoms, and repeating a creating call for the same pair
returns the atom the first call produced (leaving the workspace
unchanged). -/
theorem xi_ns_find_pair_distinction (w : XiWorkspace) (p1 p2 u : String)
    (hwf : w.WF) (hne : p1 ≠ p2) :
    (xi_ns_find (xi_ns_find w p1 u true).2 p2 u true).1 ≠
      (xi_ns_find w p1 u true).1
    ∧ (∀ v : XiWorkspace, ∀ q r : String, v.WF →
        xi_ns_find (xi_ns_find v q r true).2 q r true =
          ((xi_ns_find v q r true).1, (xi_ns_find v q r true).2)) := by
  constructor
  · obtain ⟨pa1, ua1, a1, w1, heq1, hwf1, ha1pos, hmem1, -, hgp1, hgp1e,
            hgu1, -, -, -⟩ := xi_ns_find_create_props w p1 u hwf
    obtain ⟨pa2, ua2, a2, w2, heq2, hwf2, ha2pos, hmem2, hpresNs2, hgp2, hgp2e,
            -, -, hpresN2, -⟩ := xi_ns_find_create_props w1 p2 u hwf1
    rw [heq1, heq2]
    simp only
    -- the prefix atoms differ, hence the pair keys differ
    have hpane : pa1 ≠ pa2 := by
      by_cases he1 : p1 = ""
      · by_cases he2 : p2 = ""
        · exact absurd (he1.trans he2.symm) hne
        · have h1 : pa1 = 0 := hgp1e he1
          have h2 := (hgp2 he2).2
          omega
      · by_cases he2 : p2 = ""
        · have h2 : pa2 = 0 := hgp2e he2
          have h1 := (hgp1 he1).2
          omega
        · obtain ⟨hg1, hp1pos⟩ := hgp1 he1
          obtain ⟨hg2, hp2pos⟩ := hgp2 he2
          have hg1w2 : paPatGetAtom w2.names.index p1 = pa1 := by
            rw [hpresN2 p1 (by rw [hg1]; omega), hg1]
          have hm1 : (p1, pa1) ∈ w2.names.index := by
            have := @paPatGetAtom_mem String _ w2.names.index p1
              (by rw [hg1w2]; omega)
            rwa [hg1w2] at this
          have hm2 : (p2, pa2) ∈ w2.names.index := by
            have := @paPatGetAtom_mem String _ w2.names.index p2
              (by rw [hg2]; omega)
            rwa [hg2] at this
          exact hwf2.names_wf.inj (p1, pa1) hm1 (p2, pa2) hm2 hne
    have hm1ns : ((pa1, ua1), a1) ∈ w2.nsIndex := hpresNs2 _ hmem1
    have hkey_ne : ((pa1, ua1) : Nat × Nat) ≠ (pa2, ua2) := by
      intro h
      exact hpane (congrArg Prod.fst h)
    exact fun h =>
      hwf2.ns_inj ((pa2, ua2), a2) hmem2 ((pa1, ua1), a1) hm1ns
        (Ne.symm hkey_ne) (h ▸ rfl)
  · intro v q r hv
    obtain ⟨-, -, a, v1, heq, -, -, -, -, -, -, -, -, -, hrep⟩ :=
      xi_ns_find_create_props v q r hv
    rw [heq]
    exact hrep

/-- Witness for C2 at concrete inputs: interning the pairs ("a","u") and
("b","u") into a fresh workspace yields distinct atoms, and repeating the
("a","u") call returns its original atom with no further change. -/
theorem xi_ns_find_pair_distinction_witness :
    (xi_ns_find (xi_ns_find emptyWorkspace "a" "u" true).2 "b" "u" true).1 ≠
      (xi_ns_find emptyWorkspace "a" "u" true).1
    ∧ xi_ns_find (xi_ns_find emptyWorkspace "a" "u" true).2 "a" "u" true =
        ((xi_ns_find emptyWorkspace "a" "u" true).1,
         (xi_ns_find emptyWorkspace "a" "u" true).2) := by
  have h := xi_ns_find_pair_distinction emptyWorkspace "a" "b" "u"
    emptyWorkspace_WF (by decide)
  exact ⟨h.1, h.2 emptyWorkspace "a" "u" emptyWorkspace_WF⟩

/-! ## Namespace lookup mutates the name pool (C9) -/

/-- Evaluation of xi_ns_find with create clear, given the results of the
two interning steps: the pair's indexed atom (or the null atom) is
returned, and the workspace keeps the name pool as updated by the two
interning steps. -/
theorem xi_ns_find_lookup_eval (w : XiWorkspace) (p u : String)
    {pa ua : Nat} {names1 names2 : NamePool}
    (hp : (if p ≠ "" then xi_namepool_atom w.names p true
           else (0, w.names)) = (pa, names1))
    (hpnz : p ≠ "" → pa ≠ 0)
    (hu : (if u ≠ "" then xi_namepool_atom names1 u true
           else (0, names1)) = (ua, names2))
    (hunz : u ≠ "" → ua ≠ 0) :
    xi_ns_find w p u false =
      (paPatGetAtom w.nsIndex (pa, ua), { w with names := names2 }) := by
  rw [xi_ns_find, xi_ns_findR]
  simp only [hp]
  have hc1 : ¬ (p ≠ "" ∧ pa = 0) := by
    rintro ⟨hne, hz⟩
    exact hpnz hne hz
  rw [if_neg hc1]
  simp only [hu]
  have hc2 : ¬ (u ≠ "" ∧ ua = 0) := by
    rintro ⟨hne, hz⟩
    exact hunz hne hz
  rw [if_neg hc2]
  simp

/-- Claim C9 (implicit frame effect): a pure lookup through xi_ns_find
(create clear) with non-empty, not-yet-interned prefix and URI strings
still interns both strings into the name pool (create is forced on for
them), while creating no namespace-map entry and returning the null
atom. -/
theorem xi_ns_find_lookup_interns (w : XiWorkspace) (p u : String)
    (hwf : w.WF) (hp : p ≠ "") (hu : u ≠ "")
    (hpm : paPatGetAtom w.names.index p = 0)
    (_hum : paPatGetAtom w.names.index u = 0) :
    (xi_ns_find w p u false).1 = 0
    ∧ paPatGetAtom ((xi_ns_find w p u false).2).names.index p ≠ 0
    ∧ paPatGetAtom ((xi_ns_find w p u false).2).names.index u ≠ 0
    ∧ ((xi_ns_find w p u false).2).nsIndex = w.nsIndex
    ∧ ((xi_ns_find w p u false).2).nsMap = w.nsMap := by
  have hwfn := hwf.names_wf
  have hPfst : (xi_namepool_atom w.names p true).1 = w.names.nextAtom :=
    xi_namepool_atom_miss_fst hwfn hpm
  have hPwf : ((xi_namepool_atom w.names p true).2).WF :=
    xi_namepool_atom_WF hwfn
  have hgp : paPatGetAtom ((xi_namepool_atom w.names p true).2).index p =
      (xi_namepool_atom w.names p true).1 := xi_namepool_atom_get_after hwfn
  have hppos : 1 ≤ (xi_namepool_atom w.names p true).1 :=
    xi_namepool_atom_pos hwfn
  have hupos : 1 ≤ (xi_namepool_atom ((xi_namepool_atom w.names p true).2)
      u true).1 := xi_namepool_atom_pos hPwf
  have hgu : paPatGetAtom ((xi_namepool_atom ((xi_namepool_atom
      w.names p true).2) u true).2).index u =
      (xi_namepool_atom ((xi_namepool_atom w.names p true).2) u true).1 :=
    xi_namepool_atom_get_after hPwf
  have hgp2 : paPatGetAtom ((xi_namepool_atom ((xi_namepool_atom
      w.names p true).2) u true).2).index p =
      (xi_namepool_atom w.names p true).1 := by
    rw [xi_namepool_atom_get_preserve hPwf (by rw [hgp]; omega), hgp]
  have hpif : (if p ≠ "" then xi_namepool_atom w.names p true
      else (0, w.names)) = ((xi_namepool_atom w.names p true).1,
        (xi_namepool_atom w.names p true).2) := by
    rw [if_pos hp]
  have huif : (if u ≠ "" then xi_namepool_atom
      ((xi_namepool_atom w.names p true).2) u true
      else (0, (xi_namepool_atom w.names p true).2)) =
      ((xi_namepool_atom ((xi_namepool_atom w.names p true).2) u true).1,
       (xi_namepool_atom ((xi_namepool_atom w.names p true).2) u true).2) := by
    rw [if_pos hu]
  have hmiss : paPatGetAtom w.nsIndex
      ((xi_namepool_atom w.names p true).1,
       (xi_namepool_atom ((xi_namepool_atom w.names p true).2) u true).1) = 0 := by
    by_contra hne
    have hmem := paPatGetAtom_mem hne
    have hbound := (hwf.ns_key_bound _ hmem).1
    simp only at hbound
    omega
  have heval := xi_ns_find_lookup_eval w p u hpif
    (fun _ => by omega) huif (fun _ => by omega)
  rw [heval, hmiss]
  exact ⟨rfl, by rw [hgp2]; omega, by rw [hgu]; omega, rfl, rfl⟩

/-- Witness for C9 at concrete inputs: looking up the pair ("a","u") in a
fresh workspace with create clear interns "a" and "u" into the name pool,
creates no namespace-map entry, and returns the null atom. -/
theorem xi_ns_find_lookup_interns_witness :
    (xi_ns_find emptyWorkspace "a" "u" false).1 = 0
    ∧ paPatGetAtom ((xi_ns_find emptyWorkspace "a" "u" false).2).names.index
        "a" ≠ 0
    ∧ paPatGetAtom ((xi_ns_find emptyWorkspace "a" "u" false).2).names.index
        "u" ≠ 0
    ∧ ((xi_ns_find emptyWorkspace "a" "u" false).2).nsIndex =
        emptyWorkspace.nsIndex
    ∧ ((xi_ns_find emptyWorkspace "a" "u" false).2).nsMap =
        emptyWorkspace.nsMap :=
  xi_ns_find_lookup_interns emptyWorkspace "a" "u" emptyWorkspace_WF
    (by decide) (by decide) (by decide) (by decide)

/-! ## Attribute lookup (C3) -/

/-- The scan loop returns exactly what the specification scan computes on
the visited chain (for every fuel budget, both sides walking the same
chain). -/
theorem xi_get_attrib_loop_eq (pool : List (Nat × XiNode))
    (depth nameAtom : Nat) :
    ∀ fuel atom, xi_get_attrib_loop pool depth nameAtom fuel atom =
      xi_attrib_scan (xi_child_chain pool depth fuel atom) nameAtom := by
  intro fuel
  induction fuel with
  | zero =>
    intro atom
    simp [xi_get_attrib_loop, xi_child_chain, xi_attrib_scan]
  | succ n ih =>
    intro atom
    by_cases h0 : atom = 0
    · simp [xi_get_attrib_loop, xi_child_chain, h0, xi_attrib_scan]
    · cases haddr : xi_node_addr pool atom with
      | none =>
        simp [xi_get_attrib_loop, xi_child_chain, h0, haddr, xi_attrib_scan]
      | some nodep =>
        by_cases hd : nodep.xn_depth ≤ depth
        · simp [xi_get_attrib_loop, xi_child_chain, h0, haddr, hd,
                xi_attrib_scan]
        · by_cases ht : nodep.xn_type = XI_TYPE_ATTRIB
          · by_cases hn : nodep.xn_name = nameAtom
            · simp [xi_get_attrib_loop, xi_child_chain, h0, haddr, hd, ht, hn,
                    xi_attrib_scan, List.find?]
            · simp [xi_get_attrib_loop, xi_child_chain, h0, haddr, hd, ht, hn,
                    xi_attrib_scan, List.find?, ih]
          · simp [xi_get_attrib_loop, xi_child_chain, h0, haddr, hd, ht,
                  xi_attrib_scan, List.find?, ih]

/-- Claim C3: xi_get_attrib walks the sibling chain from the node's
first-child atom, stopping at the chain's end or at the first record whose
depth falls back to the node's; only attribute-typed records are compared
and the first one whose name atom matches yields its contents atom; a node
without the attributes-present flag short-circuits to the null atom; and
any nonzero result comes from an attribute-typed record in the chain (in
particular never from a same-depth element child with a matching name). -/
theorem xi_get_attrib_spec (pool : List (Nat × XiNode)) (nodep : XiNode)
    (nameAtom fuel : Nat) :
    (nodep.xn_flags &&& XNF_ATTRIBS_PRESENT = 0 →
       xi_get_attrib pool nodep nameAtom fuel = 0)
    ∧ (nodep.xn_flags &&& XNF_ATTRIBS_PRESENT ≠ 0 →
       xi_get_attrib pool nodep nameAtom fuel =
         xi_attrib_scan (xi_child_chain pool nodep.xn_depth fuel
           nodep.xn_contents) nameAtom)
    ∧ (∀ r, xi_get_attrib pool nodep nameAtom fuel = r → r ≠ 0 →
        ∃ n ∈ xi_child_chain pool nodep.xn_depth fuel nodep.xn_contents,
          n.xn_type = XI_TYPE_ATTRIB ∧ n.xn_name = nameAtom ∧
          n.xn_contents = r) := by
  refine ⟨fun hflag => by simp [xi_get_attrib, hflag], fun hflag => ?_, ?_⟩
  · rw [xi_get_attrib, if_neg hflag]
    exact xi_get_attrib_loop_eq pool nodep.xn_depth nameAtom fuel
      nodep.xn_contents
  · intro r hr hrne
    by_cases hflag : nodep.xn_flags &&& XNF_ATTRIBS_PRESENT = 0
    · rw [xi_get_attrib, if_pos hflag] at hr
      exact absurd hr.symm hrne
    · rw [xi_get_attrib, if_neg hflag,
          xi_get_attrib_loop_eq pool nodep.xn_depth nameAtom fuel
            nodep.xn_contents] at hr
      rw [xi_attrib_scan] at hr
      cases hfind : (xi_child_chain pool nodep.xn_depth fuel
          nodep.xn_contents).find? (fun n => n.xn_type == XI_TYPE_ATTRIB &&
            n.xn_name == nameAtom) with
      | none =>
        rw [hfind] at hr
        exact absurd hr.symm hrne
      | some n =>
        rw [hfind] at hr
        have hmem := List.mem_of_find?_eq_some hfind
        have hpred := List.find?_some hfind
        simp only [Bool.and_eq_true, beq_iff_eq] at hpred
        exact ⟨n, hmem, hpred.1, hpred.2, hr⟩

/-- Witness for C3 at the spec's boundary scenario: asking for the element
child's name atom 12 returns the null atom even though a child in the
scanned chain carries that name - it is an element, not an attribute. -/
theorem xi_get_attrib_spec_witness :
    xi_get_attrib demoNodePool demoStart 12 10 = 0
    ∧ ((xi_child_chain demoNodePool demoStart.xn_depth 10
          demoStart.xn_contents).any (fun n => n.xn_name == 12)) = true := by
  constructor
  · have h := (xi_get_attrib_spec demoNodePool demoStart 12 10).2.1 (by decide)
    rw [h]
    decide
  · decide

/-! ## DuplicateKey handling (C4, C5) -/

theorem paPatHasKey_append_left {κ : Type} [DecidableEq κ]
    {l1 : List (κ × Nat)} (l2 : List (κ × Nat)) {k : κ}
    (h : paPatHasKey l1 k = true) : paPatHasKey (l1 ++ l2) k = true := by
  induction l1 with
  | nil => simp [paPatHasKey] at h
  | cons e rest ih =>
    by_cases hk : e.1 = k
    · simp [paPatHasKey, hk]
    · simp only [paPatHasKey, if_neg hk] at h
      simp only [List.cons_append, paPatHasKey, if_neg hk]
      exact ih h

/-- Evaluation of xi_namepool_atom when the trie add hits a raced
duplicate: the routine still returns the atom of the string it just
stored, and the trie (unchanged by the failed add) keeps resolving the
string to the raced entry's atom. -/
theorem xi_namepool_atomR_dup_eval (np : NamePool)
    (raced : List (String × Nat)) (s : String) (e : Nat)
    (hmiss : paPatGetAtom np.index s = 0)
    (hraced : paPatGetAtom raced s = e) (he : e ≠ 0) :
    (xi_namepool_atomR np raced s true).1 = np.nextAtom
    ∧ paPatGetAtom ((xi_namepool_atomR np raced s true).2).index s = e := by
  have hrne : paPatGetAtom raced s ≠ 0 := by rw [hraced]; exact he
  have hkey : paPatHasKey (raced ++ np.index) s = true :=
    paPatHasKey_append_left np.index (paPatHasKey_true_of_getAtom_ne hrne)
  have hget : paPatGetAtom (raced ++ np.index) s = e := by
    rw [paPatGetAtom_append raced np.index s hrne, hraced]
  simp only [xi_namepool_atomR, hmiss, paPatAdd, hkey]
  simp [hget]

/-- Raced-duplicate evaluation of xi_ns_find: with the two interning
results given, a pair that misses the trie before the add but was
committed by a racing writer in between makes pa_pat_add fail; the
routine frees the just-allocated ns-map record and returns the null
atom. -/
theorem xi_ns_findR_dup_eval (w : XiWorkspace)
    (racedNs : List ((Nat × Nat) × Nat)) (p u : String)
    {pa ua : Nat} {names1 names2 : NamePool}
    (hp : (if p ≠ "" then xi_namepool_atom w.names p true
           else (0, w.names)) = (pa, names1))
    (hpnz : p ≠ "" → pa ≠ 0)
    (hu : (if u ≠ "" then xi_namepool_atom names1 u true
           else (0, names1)) = (ua, names2))
    (hunz : u ≠ "" → ua ≠ 0)
    (hmiss : paPatGetAtom w.nsIndex (pa, ua) = 0)
    (hkey : paPatHasKey (racedNs ++ w.nsIndex) (pa, ua) = true) :
    (xi_ns_findR w racedNs p u true).1 = 0 := by
  rw [xi_ns_findR]
  simp only [hp]
  have hc1 : ¬ (p ≠ "" ∧ pa = 0) := by
    rintro ⟨hne, hz⟩
    exact hpnz hne hz
  rw [if_neg hc1]
  simp only [hu]
  have hc2 : ¬ (u ≠ "" ∧ ua = 0) := by
    rintro ⟨hne, hz⟩
    exact hunz hne hz
  rw [if_neg hc2]
  simp [hmiss, paPatAdd, hkey]

/-- Counterexample to C4 as stated: with the trie already holding "foo"
with atom 5 when the add runs (the raced duplicate), the routine returns
atom 1 - the atom of the string it just stored - not the existing atom 5
(which the trie keeps resolving "foo" to). -/
theorem xi_namepool_atom_dup_counterexample :
    (xi_namepool_atomR emptyNamePool [("foo", 5)] "foo" true).1 = 1
    ∧ paPatGetAtom ((xi_namepool_atomR emptyNamePool [("foo", 5)] "foo"
        true).2).index "foo" = 5
    ∧ (1 : Nat) ≠ 5 := by decide

/-- Claim C4 amended: when the trie insert of the freshly stored string
reports a duplicate key, xi_namepool_atom returns the atom of the string
it just stored (after logging a warning), not the existing entry's atom;
the trie is left unchanged, so it keeps resolving the text to the
existing atom and later callers receive that existing atom. -/
theorem xi_namepool_atom_dup_returns_fresh (np : NamePool)
    (raced : List (String × Nat)) (s : String) (e : Nat)
    (hmiss : paPatGetAtom np.index s = 0)
    (hraced : paPatGetAtom raced s = e) (he : e ≠ 0) :
    (xi_namepool_atomR np raced s true).1 = np.nextAtom
    ∧ paPatGetAtom ((xi_namepool_atomR np raced s true).2).index s = e :=
  xi_namepool_atomR_dup_eval np raced s e hmiss hraced he

/-- Witness for the amended C4 at concrete inputs: a raced entry ("x", 7)
makes the add fail; the returned atom is the fresh atom 1 while the trie
keeps resolving "x" to 7. -/
theorem xi_namepool_atom_dup_returns_fresh_witness :
    (xi_namepool_atomR emptyNamePool [("x", 7)] "x" true).1 = 1
    ∧ paPatGetAtom ((xi_namepool_atomR emptyNamePool [("x", 7)] "x"
        true).2).index "x" = 7 := by
  have h := xi_namepool_atom_dup_returns_fresh emptyNamePool [("x", 7)] "x" 7
    (by decide) (by decide) (by decide)
  exact ⟨h.1, h.2⟩

/-- Counterexample to C5 as stated: in namespace interning a raced
duplicate (the pair (1,2) committed with atom 9 between lookup and add) is
surfaced to the caller as the null atom - the condition is not recovered
by returning the existing atom 9, which stays in the trie. -/
theorem xi_ns_find_dup_counterexample :
    (xi_ns_findR emptyWorkspace [((1, 2), 9)] "a" "u" true).1 = 0
    ∧ paPatGetAtom ((xi_ns_findR emptyWorkspace [((1, 2), 9)] "a" "u"
        true).2).nsIndex (1, 2) = 9 := by decide

/-- Claim C5 amended: the two interning routines handle a DuplicateKey
from the trie insert differently - xi_namepool_atom does not surface it as
a failure (it returns the freshly stored, nonzero atom), while xi_ns_find
frees the just-allocated ns-map record and returns the null atom,
surfacing the duplicate as a failure to its caller. -/
theorem xi_dup_not_uniformly_recovered (np : NamePool)
    (raced : List (String × Nat)) (s : String) (e : Nat) (hwf : np.WF)
    (hmiss : paPatGetAtom np.index s = 0)
    (hraced : paPatGetAtom raced s = e) (he : e ≠ 0) :
    (xi_namepool_atomR np raced s true).1 ≠ 0
    ∧ (∀ p u : String, ∀ x : Nat, p ≠ "" → u ≠ "" → p ≠ u →
        (xi_ns_findR emptyWorkspace [((1, 2), x)] p u true).1 = 0) := by
  constructor
  · rw [(xi_namepool_atomR_dup_eval np raced s e hmiss hraced he).1]
    have := hwf.next_pos
    omega
  · intro p u x hp hu hpu
    have hwfe : emptyNamePool.WF := emptyNamePool_WF
    have hpa : (xi_namepool_atom emptyWorkspace.names p true).1 = 1 :=
      xi_namepool_atom_miss_fst hwfe rfl
    have hidx : ((xi_namepool_atom emptyWorkspace.names p true).2).index =
        [(p, 1)] := xi_namepool_atom_miss_index hwfe rfl
    have hwf1 : ((xi_namepool_atom emptyWorkspace.names p true).2).WF :=
      xi_namepool_atom_WF hwfe
    have hnext1 : ((xi_namepool_atom emptyWorkspace.names p true).2).nextAtom
        = 2 := xi_namepool_atom_miss_next hwfe rfl
    have hmissu : paPatGetAtom
        ((xi_namepool_atom emptyWorkspace.names p true).2).index u = 0 := by
      rw [hidx]
      have : ¬ ((p, 1).1 = u) := fun hc => hpu hc
      simp [paPatGetAtom, this]
    have hua : (xi_namepool_atom
        ((xi_namepool_atom emptyWorkspace.names p true).2) u true).1 = 2 := by
      rw [xi_namepool_atom_miss_fst hwf1 hmissu, hnext1]
    have hkey : paPatHasKey ([((1, 2), x)] ++ emptyWorkspace.nsIndex)
        (((xi_namepool_atom emptyWorkspace.names p true).1,
          (xi_namepool_atom ((xi_namepool_atom emptyWorkspace.names p
            true).2) u true).1) : Nat × Nat) = true := by
      rw [hpa, hua]
      simp [paPatHasKey]
    exact xi_ns_findR_dup_eval emptyWorkspace [((1, 2), x)] p u
      (by rw [if_pos hp]) (fun _ => by rw [hpa]; omega)
      (by rw [if_pos hu]) (fun _ => by rw [hua]; omega)
      rfl hkey

/-- Witness for the amended C5 at concrete inputs: a raced name-trie entry
("y", 3) still yields a nonzero atom from xi_namepool_atom, while a raced
namespace-pair entry makes xi_ns_find return the null atom. -/
theorem xi_dup_not_uniformly_recovered_witness :
    (xi_namepool_atomR emptyNamePool [("y", 3)] "y" true).1 ≠ 0
    ∧ (xi_ns_findR emptyWorkspace [((1, 2), 9)] "a" "b" true).1 = 0 := by
  have h := xi_dup_not_uniformly_recovered emptyNamePool [("y", 3)] "y" 3
    emptyNamePool_WF (by decide) (by decide) (by decide)
  exact ⟨h.1, h.2 "a" "b" 9 (by decide) (by decide) (by decide)⟩

/-- Claim C6: xi_workspace_open is atomic with respect to construction
failure - whichever child open (or the final alloc) fails, every child
pool opened earlier in the same call has been closed again by the time
the call returns failure, so the set of open segments is exactly what it
was before the call. -/
theorem xi_workspace_open_rollback (oc : XiOpenOracle) (segs : List XiSeg)
    (h : (xi_workspace_open oc segs).1 = none) :
    (xi_workspace_open oc segs).2 = segs := by
  rcases oc with ⟨b1, b2, b3, b4, b5, b6, b7, b8, b9⟩
  cases b1 <;> cases b2 <;> cases b3 <;> cases b4 <;> cases b5 <;>
    cases b6 <;> cases b7 <;> cases b8 <;> cases b9 <;>
    simp_all [xi_workspace_open, xi_namepool_open, xi_ns_open, pa_pool_open,
      pa_pool_close, pa_pool_close_opt, xi_workspace_fail,
      pa_fixed_set_flags, List.erase_cons_head, List.erase_cons_tail]

/-- Witness for C6 at a concrete run: with every open succeeding until the
nodeset-info pool's fails, the call reports failure and leaves no segment
open. -/
theorem xi_workspace_open_rollback_witness :
    ((xi_workspace_open
        { namesData := true, namesIdx := true, nsData := true, nsIdx := true,
          nodes := true, textData := true, nodesetChunks := true,
          nodesetInfo := false, callocOk := true } []).1 = none)
    ∧ (xi_workspace_open
        { namesData := true, namesIdx := true, nsData := true, nsIdx := true,
          nodes := true, textData := true, nodesetChunks := true,
          nodesetInfo := false, callocOk := true } []).2 = [] := by
  refine ⟨by decide, ?_⟩
  exact xi_workspace_open_rollback _ [] (by decide)

/-- Claim C10 (implicit): after a successful xi_workspace_open the
zero-on-allocate policy is enabled exactly on the nodeset-chunks and
nodeset-info pools; the node pool, the namespace-map pool and the
remaining pools are opened without it. -/
theorem xi_workspace_open_init_zero_flags (oc : XiOpenOracle)
    (segs : List XiSeg) (w : XiWorkspacePools)
    (h : (xi_workspace_open oc segs).1 = some w) :
    w.xw_nodeset_chunks.flags = PFF_INIT_ZERO
    ∧ w.xw_nodeset_info.flags = PFF_INIT_ZERO
    ∧ w.xw_nodes.flags = 0
    ∧ w.xw_ns_map.flags = 0
    ∧ w.xw_names.flags = 0
    ∧ w.xw_names_index.flags = 0
    ∧ w.xw_ns_map_index.flags = 0
    ∧ w.xw_textpool.flags = 0 := by
  rcases oc with ⟨b1, b2, b3, b4, b5, b6, b7, b8, b9⟩
  cases b1 <;> cases b2 <;> cases b3 <;> cases b4 <;> cases b5 <;>
    cases b6 <;> cases b7 <;> cases b8 <;> cases b9 <;>
    simp_all [xi_workspace_open, xi_namepool_open, xi_ns_open, pa_pool_open,
      pa_fixed_set_flags, PFF_INIT_ZERO]
  rw [← h]
  decide

/-- Witness for C10 at a concrete run: the pools of a fully successful
open carry the zero-on-allocate bit exactly on nodeset-chunks and
nodeset-info. -/
theorem xi_workspace_open_init_zero_flags_witness :
    ((xi_workspace_open xiAllOk []).1 = some demoPools)
    ∧ demoPools.xw_nodeset_chunks.flags = PFF_INIT_ZERO
    ∧ demoPools.xw_nodeset_info.flags = PFF_INIT_ZERO
    ∧ demoPools.xw_nodes.flags = 0
    ∧ demoPools.xw_ns_map.flags = 0 := by
  have h : (xi_workspace_open xiAllOk []).1 = some demoPools := by decide
  have hz := xi_workspace_open_init_zero_flags xiAllOk [] demoPools h
  exact ⟨h, hz.1, hz.2.1, hz.2.2.1, hz.2.2.2.1⟩

/-! ## The uint16_t key length truncates (C7) -/

/-- Claim C7, evaluated at the failing input: on a 65535-byte string the
key length `uint16_t len = strlen(data) + 1` wraps to 0 instead of the
true byte length plus one (65536) - the over-long input is silently
truncated before any length check can reject it, contradicting the claim
that the computed length equals the true byte length plus one for strings
of any length. -/
theorem xi_namepool_len_truncates :
    xi_namepool_len xiLongInput = 0
    ∧ xiLongInput.length + 1 = 65536
    ∧ xi_namepool_len xiLongInput ≠ xiLongInput.length + 1 := by
  have hlen : xiLongInput.length = 65535 := by
    rw [xiLongInput]
    show (List.replicate 65535 'a').length = 65535
    rw [List.length_replicate]
  refine ⟨?_, by rw [hlen], ?_⟩
  · rw [xi_namepool_len, hlen]
  · rw [xi_namepool_len, hlen]
    decide

/-! ## Atom stability of the fixed slot pool (C8) -/

theorem paThreaded_congr {mem1 mem2 : Nat → Nat} {l : List Nat}
    (h : ∀ x ∈ l, mem1 x = mem2 x) (ht : PaThreaded mem2 l) :
    PaThreaded mem1 l := by
  induction l with
  | nil => trivial
  | cons a rest ih =>
    obtain ⟨h1, h2⟩ := ht
    exact ⟨(h a (List.mem_cons_self a rest)).trans h1,
           ih (fun x hx => h x (List.mem_cons_of_mem a hx)) h2⟩

/-- Every workload step preserves well-formedness of the pool. -/
theorem paFixedStep_WF {pf : PaFixed} (hwf : pf.WF) (op : PaOp) :
    (paFixedStep pf op).WF := by
  cases op with
  | alloc =>
    show (pa_fixed_alloc_atom pf).2.WF
    cases hfl : pf.freeList with
    | cons a rest =>
      have ha_mem : a ∈ pf.freeList := by rw [hfl]; exact List.mem_cons_self a rest
      have ha_pos := hwf.free_pos a ha_mem
      have ha_lt := hwf.free_lt a ha_mem
      have ha_nlive : a ∉ pf.live := fun h => hwf.disj a h ha_mem
      have hrest_sub : ∀ x ∈ rest, x ∈ pf.freeList := by
        rw [hfl]; intro x hx; exact List.mem_cons_of_mem a hx
      have ha_nrest : a ∉ rest := by
        have hnd := hwf.free_nodup
        rw [hfl] at hnd
        exact (List.nodup_cons.mp hnd).1
      have hrest_nd : rest.Nodup := by
        have hnd := hwf.free_nodup
        rw [hfl] at hnd
        exact (List.nodup_cons.mp hnd).2
      have hthr : PaThreaded pf.mem rest := by
        have hth := hwf.threaded
        rw [hfl] at hth
        exact hth.2
      simp only [pa_fixed_alloc_atom, hfl]
      constructor
      · exact hwf.top_pos
      · intro x hx
        rcases List.mem_cons.mp hx with rfl | hx2
        · exact ha_pos
        · exact hwf.live_pos x hx2
      · intro x hx
        rcases List.mem_cons.mp hx with rfl | hx2
        · exact ha_lt
        · exact hwf.live_lt x hx2
      · intro x hx
        exact hwf.free_pos x (hrest_sub x hx)
      · intro x hx
        exact hwf.free_lt x (hrest_sub x hx)
      · intro x hx
        rcases List.mem_cons.mp hx with rfl | hx2
        · exact ha_nrest
        · exact fun hc => hwf.disj x hx2 (hrest_sub x hc)
      · exact List.nodup_cons.mpr ⟨ha_nlive, hwf.live_nodup⟩
      · exact hrest_nd
      · refine paThreaded_congr ?_ hthr
        intro x hx
        have hxa : x ≠ a := fun hc => ha_nrest (hc ▸ hx)
        by_cases hz : pf.initZero <;> simp [hz, hxa]
      · exact hwf.covered
    | nil =>
      by_cases hmax : pf.maxAtoms < pf.top
      · simpa [pa_fixed_alloc_atom, hfl, hmax] using hwf
      · have htop_nlive : pf.top ∉ pf.live := fun h =>
          absurd (hwf.live_lt _ h) (lt_irrefl _)
        simp only [pa_fixed_alloc_atom, hfl, if_neg hmax]
        constructor
        · show 1 ≤ pf.top + 1
          omega
        · intro x hx
          rcases List.mem_cons.mp hx with rfl | hx2
          · exact hwf.top_pos
          · exact hwf.live_pos x hx2
        · intro x hx
          rcases List.mem_cons.mp hx with rfl | hx2
          · show pf.top < pf.top + 1
            omega
          · show x < pf.top + 1
            have := hwf.live_lt x hx2
            omega
        · intro x hx
          simp at hx
        · intro x hx
          simp at hx
        · intro x hx
          simp
        · exact List.nodup_cons.mpr ⟨htop_nlive, hwf.live_nodup⟩
        · exact List.nodup_nil
        · trivial
        · intro x hx1 hx2
          rcases Nat.lt_succ_iff_lt_or_eq.mp hx2 with hlt | rfl
          · exact lt_of_lt_of_le (hwf.covered x hx1 hlt) (le_max_left _ _)
          · exact lt_of_lt_of_le (Nat.lt_succ_self _) (le_max_right _ _)
  | free b =>
    show (pa_fixed_free_atom pf b).WF
    by_cases hb : b ∈ pf.live
    · have hb_pos := hwf.live_pos b hb
      have hb_lt := hwf.live_lt b hb
      have hb_nfree : b ∉ pf.freeList := hwf.disj b hb
      simp only [pa_fixed_free_atom, if_pos hb]
      constructor
      · exact hwf.top_pos
      · intro x hx
        exact hwf.live_pos x (List.mem_of_mem_erase hx)
      · intro x hx
        exact hwf.live_lt x (List.mem_of_mem_erase hx)
      · intro x hx
        rcases List.mem_cons.mp hx with rfl | hx2
        · exact hb_pos
        · exact hwf.free_pos x hx2
      · intro x hx
        rcases List.mem_cons.mp hx with rfl | hx2
        · exact hb_lt
        · exact hwf.free_lt x hx2
      · intro x hx
        obtain ⟨hxb, hxl⟩ := (hwf.live_nodup.mem_erase_iff).mp hx
        intro hc
        rcases List.mem_cons.mp hc with rfl | hc2
        · exact hxb rfl
        · exact hwf.disj x hxl hc2
      · exact hwf.live_nodup.erase b
      · exact List.nodup_cons.mpr ⟨hb_nfree, hwf.free_nodup⟩
      · refine ⟨by simp [pf_free], ?_⟩
        refine paThreaded_congr ?_ hwf.threaded
        intro x hx
        have hxb : x ≠ b := fun hc => hb_nfree (hc ▸ hx)
        simp [hxb]
      · exact hwf.covered
    · simpa [pa_fixed_free_atom, hb] using hwf
  | write b v =>
    show (pa_fixed_write_atom pf b v).WF
    by_cases hb : b ∈ pf.live
    · have hb_nfree : b ∉ pf.freeList := hwf.disj b hb
      simp only [pa_fixed_write_atom, if_pos hb]
      refine ⟨hwf.top_pos, hwf.live_pos, hwf.live_lt, hwf.free_pos,
              hwf.free_lt, hwf.disj, hwf.live_nodup, hwf.free_nodup,
              ?_, hwf.covered⟩
      refine paThreaded_congr ?_ hwf.threaded
      intro x hx
      have hxb : x ≠ b := fun hc => hb_nfree (hc ▸ hx)
      simp [hxb]
    · simpa [pa_fixed_write_atom, hb] using hwf

/-- A workload step that does not free or overwrite a live atom keeps it
live with unchanged content, keeps the shift, and never shrinks the chunk
table. -/
theorem paFixedStep_frame {pf : PaFixed} (hwf : pf.WF) {b : Nat}
    (hb : b ∈ pf.live) {op : PaOp} (hop : op.touches b = false) :
    b ∈ (paFixedStep pf op).live
    ∧ (paFixedStep pf op).mem b = pf.mem b
    ∧ (paFixedStep pf op).shift = pf.shift
    ∧ pf.chunkCount ≤ (paFixedStep pf op).chunkCount := by
  cases op with
  | alloc =>
    cases hfl : pf.freeList with
    | cons a rest =>
      have ha_mem : a ∈ pf.freeList := by
        rw [hfl]; exact List.mem_cons_self a rest
      have hba : b ≠ a := fun hc => hwf.disj b hb (hc ▸ ha_mem)
      simp only [paFixedStep, pa_fixed_alloc_atom, hfl]
      refine ⟨List.mem_cons_of_mem a hb, ?_, by trivial, le_refl _⟩
      by_cases hz : pf.initZero <;> simp [hz, hba]
    | nil =>
      by_cases hmax : pf.maxAtoms < pf.top
      · simp only [paFixedStep, pa_fixed_alloc_atom, hfl, if_pos hmax]
        exact ⟨hb, by trivial, by trivial, le_refl _⟩
      · have hbt : b ≠ pf.top := fun hc =>
          absurd (hwf.live_lt b hb) (hc ▸ lt_irrefl _)
        simp only [paFixedStep, pa_fixed_alloc_atom, hfl, if_neg hmax]
        refine ⟨List.mem_cons_of_mem _ hb, ?_, by trivial, le_max_left _ _⟩
        by_cases hz : pf.initZero <;> simp [hz, hbt]
  | free c =>
    have hcb : ¬ (c = b) := by simpa [PaOp.touches] using hop
    by_cases hc : c ∈ pf.live
    · simp only [paFixedStep, pa_fixed_free_atom, if_pos hc]
      refine ⟨?_, ?_, by trivial, le_refl _⟩
      · exact (List.mem_erase_of_ne (fun h => hcb h.symm)).mpr hb
      · show (if b = c then pf_free pf else pf.mem b) = pf.mem b
        rw [if_neg (fun h : b = c => hcb h.symm)]
    · simp only [paFixedStep, pa_fixed_free_atom, if_neg hc]
      exact ⟨hb, by trivial, by trivial, le_refl _⟩
  | write c v =>
    have hcb : ¬ (c = b) := by simpa [PaOp.touches] using hop
    by_cases hc : c ∈ pf.live
    · simp only [paFixedStep, pa_fixed_write_atom, if_pos hc]
      refine ⟨hb, ?_, by trivial, le_refl _⟩
      show (if b = c then v else pf.mem b) = pf.mem b
      rw [if_neg (fun h : b = c => hcb h.symm)]
    · simp only [paFixedStep, pa_fixed_write_atom, if_neg hc]
      exact ⟨hb, by trivial, by trivial, le_refl _⟩

/-- Frame over a whole workload: a live atom untouched by any step stays
live with unchanged content; the shift never changes and the chunk table
only grows. -/
theorem paFixedRun_frame (ops : List PaOp) :
    ∀ pf : PaFixed, pf.WF → ∀ b ∈ pf.live,
      (∀ op ∈ ops, op.touches b = false) →
      (ops.foldl paFixedStep pf).WF
      ∧ b ∈ (ops.foldl paFixedStep pf).live
      ∧ (ops.foldl paFixedStep pf).mem b = pf.mem b
      ∧ (ops.foldl paFixedStep pf).shift = pf.shift
      ∧ pf.chunkCount ≤ (ops.foldl paFixedStep pf).chunkCount := by
  induction ops with
  | nil =>
    intro pf hwf b hb _
    exact ⟨hwf, hb, rfl, rfl, le_refl _⟩
  | cons op rest ih =>
    intro pf hwf b hb hops
    have hop := hops op (List.mem_cons_self op rest)
    obtain ⟨h1, h2, h3, h4⟩ := paFixedStep_frame hwf hb hop
    have hwf1 := paFixedStep_WF hwf op
    obtain ⟨w1, m1, e1, s1, c1⟩ := ih (paFixedStep pf op) hwf1 b h1
      (fun o ho => hops o (List.mem_cons_of_mem op ho))
    simp only [List.foldl_cons]
    exact ⟨w1, m1, e1.trans h2, s1.trans h3, le_trans h4 c1⟩

/-- A successful allocation leaves the returned atom live. -/
theorem pa_fixed_alloc_live {pf : PaFixed}
    (h0 : (pa_fixed_alloc_atom pf).1 ≠ 0) :
    (pa_fixed_alloc_atom pf).1 ∈ ((pa_fixed_alloc_atom pf).2).live := by
  cases hfl : pf.freeList with
  | cons a rest => simp [pa_fixed_alloc_atom, hfl]
  | nil =>
    by_cases hmax : pf.maxAtoms < pf.top
    · simp [pa_fixed_alloc_atom, hfl, hmax] at h0
    · simp [pa_fixed_alloc_atom, hfl, hmax]

/-- Claim C8: atom stability - an atom returned by a successful allocate
keeps resolving to the same record content, with the same address_of
decomposition, valid in the (only growing) chunk table, across every
further sequence of allocate, free and write steps - chunk growth
included - that does not free or overwrite the atom itself. -/
theorem pa_fixed_atom_stability (pf : PaFixed) (a : Nat) (ops : List PaOp)
    (hwf : pf.WF) (ha : (pa_fixed_alloc_atom pf).1 = a) (h0 : a ≠ 0)
    (hops : ∀ op ∈ ops, op.touches a = false) :
    a ∈ (ops.foldl paFixedStep (pa_fixed_alloc_atom pf).2).live
    ∧ (ops.foldl paFixedStep (pa_fixed_alloc_atom pf).2).mem a =
        ((pa_fixed_alloc_atom pf).2).mem a
    ∧ pa_fixed_atom_addr (ops.foldl paFixedStep (pa_fixed_alloc_atom pf).2) a
        = pa_fixed_atom_addr ((pa_fixed_alloc_atom pf).2) a
    ∧ (pa_fixed_atom_addr (ops.foldl paFixedStep (pa_fixed_alloc_atom pf).2)
        a).1 <
      (ops.foldl paFixedStep (pa_fixed_alloc_atom pf).2).chunkCount := by
  subst ha
  have hlive := pa_fixed_alloc_live h0
  have hwf1 : ((pa_fixed_alloc_atom pf).2).WF := paFixedStep_WF hwf PaOp.alloc
  obtain ⟨hw, hm, he, hs, hc⟩ :=
    paFixedRun_frame ops ((pa_fixed_alloc_atom pf).2) hwf1 _ hlive hops
  refine ⟨hm, he, ?_, ?_⟩
  · rw [pa_fixed_atom_addr, pa_fixed_atom_addr, hs]
  · have hpos := hw.live_pos _ hm
    have hlt := hw.live_lt _ hm
    exact hw.covered _ hpos hlt

theorem demoFixed_WF : demoFixed.WF := by
  constructor
  · exact le_refl 1
  · intro a h
    simp [demoFixed] at h
  · intro a h
    simp [demoFixed] at h
  · intro a h
    simp [demoFixed] at h
  · intro a h
    simp [demoFixed] at h
  · intro a h
    simp [demoFixed] at h
  · exact List.nodup_nil
  · exact List.nodup_nil
  · trivial
  · intro a h1 h2
    simp [demoFixed] at h2
    omega

/-- Witness for C8 at a concrete workload: atom 1 allocated from a fresh
pool survives two further allocations (growing the chunk table), a free,
a reallocation and a write to another atom, with its content, address and
address validity intact. -/
theorem pa_fixed_atom_stability_witness :
    1 ∈ ([PaOp.alloc, PaOp.alloc, PaOp.free 2, PaOp.alloc,
          PaOp.write 3 5].foldl paFixedStep (pa_fixed_alloc_atom
            demoFixed).2).live
    ∧ ([PaOp.alloc, PaOp.alloc, PaOp.free 2, PaOp.alloc,
        PaOp.write 3 5].foldl paFixedStep (pa_fixed_alloc_atom
          demoFixed).2).mem 1 = ((pa_fixed_alloc_atom demoFixed).2).mem 1
    ∧ pa_fixed_atom_addr ([PaOp.alloc, PaOp.alloc, PaOp.free 2, PaOp.alloc,
        PaOp.write 3 5].foldl paFixedStep (pa_fixed_alloc_atom demoFixed).2)
        1 = pa_fixed_atom_addr ((pa_fixed_alloc_atom demoFixed).2) 1
    ∧ (pa_fixed_atom_addr ([PaOp.alloc, PaOp.alloc, PaOp.free 2,
        PaOp.alloc, PaOp.write 3 5].foldl paFixedStep (pa_fixed_alloc_atom
          demoFixed).2) 1).1 <
      ([PaOp.alloc, PaOp.alloc, PaOp.free 2, PaOp.alloc,
        PaOp.write 3 5].foldl paFixedStep (pa_fixed_alloc_atom
          demoFixed).2).chunkCount :=
  pa_fixed_atom_stability demoFixed 1
    [PaOp.alloc, PaOp.alloc, PaOp.free 2, PaOp.alloc, PaOp.write 3 5]
    demoFixed_WF (by decide) (by decide) (by decide)
